import Mathlib

/-!
Verification of the data-validation, identity-registry, loading and batched
inference pipelines of `vaemof/experiments.py`.

Dataframes are embedded as lists of rows.  A `Row` carries the columns the
verified functions read: the MOF structural triple (`metal_node`,
`organic_core`, `topology`), the boolean `mask` flag, the two selectivity
target columns (floats embedded as rationals: only order comparisons against
the literal `200.0` occur, which rationals model exactly), the canonical id
column `id2mof` and the SMILES string.  Python dicts (`OrderedDict`) are
embedded as association lists with insert-overwrites-value semantics, and
operations that can raise (`dict[k]` lookup, `np.stack` of an empty list,
`ValueError` in `get_mofdict`) return `Option` or `Except`.
-/

set_option maxHeartbeats 1000000

/-- A dataframe row with the columns read by the verified pipelines. -/
structure Row where
  metal_node : String
  organic_core : String
  topology : String
  mask : Bool
  co2n2_selectivity : ℚ
  co2ch4_selectivity : ℚ
  id2mof : ℕ
  smiles : String
deriving DecidableEq, Repr

/-- A MOF structural identity: the `(metal_node, organic_core, topology)` triple. -/
abbrev Mof : Type := String × String × String

/-- The triple `tuple(x)` built from the `mof_cols` of a row. -/
def Row.mof (r : Row) : Mof :=
  (r.metal_node, r.organic_core, r.topology)

/-- Python dict membership `k in d.keys()` for an association list. -/
def dmem [DecidableEq κ] (d : List (κ × ν)) (k : κ) : Bool :=
  d.any (fun p => decide (p.1 = k))

/-- Python dict lookup `d[k]`, `none` when the key is missing (KeyError). -/
def dlookup [DecidableEq κ] (d : List (κ × ν)) (k : κ) : Option ν :=
  (d.find? (fun p => decide (p.1 = k))).map (fun p => p.2)

/-- Python dict assignment `d[k] = v`: overwrite the value if the key is
present (keeping its position, as in `OrderedDict`), else append. -/
def dinsert [DecidableEq κ] (d : List (κ × ν)) (k : κ) (v : ν) : List (κ × ν) :=
  if dmem d k then d.map (fun p => if p.1 = k then (k, v) else p)
  else d ++ [(k, v)]

/-! ### `get_prop_df` (validation and filter pipeline)

The input `df` below is the dataframe as loaded (after the optional
test-mode `sample(n=1000)`); the claims quantify over it, which covers every
CSV and every sample.  The optional scscore column and the target-column
assertion do not touch the fields the claims are about.
-/

/-- `valid_mof` from `get_prop_df`: `tuple(x) in mof2ids.keys()`. -/
def valid_mof (mof2ids : List (Mof × ℕ)) (r : Row) : Bool :=
  dmem mof2ids r.mof

/-- Stage 4, the mask filter: `df.query('mask')`. -/
def maskFilter (df : List Row) : List Row :=
  df.filter (fun r => r.mask)

/-- Stage 5a, the identity filter: `df[valid_mofs_list]`. -/
def identityFilter (mof2ids : List (Mof × ℕ)) (df : List Row) : List Row :=
  df.filter (fun r => valid_mof mof2ids r)

/-- Stage 5b, attaching the canonical id:
`df['id2mof'] = df[mof_cols].apply(lambda x: mof2ids[tuple(x)], axis=1)`.
The lookup `mof2ids[tuple(x)]` raises `KeyError` on a missing key, hence the
`Option` result. -/
def attachIds (mof2ids : List (Mof × ℕ)) : List Row → Option (List Row)
  | [] => some []
  | r :: rs =>
    match dlookup mof2ids r.mof with
    | none => none
    | some i => (attachIds mof2ids rs).map (fun l => { r with id2mof := i } :: l)

/-- Stage 6, the outlier filter:
`df = df[df['co2n2_selectivity'] < 200.0]; df = df[df['co2ch4_selectivity'] < 200.0]`. -/
def outlierFilter (df : List Row) : List Row :=
  (df.filter (fun r => decide (r.co2n2_selectivity < 200))).filter
    (fun r => decide (r.co2ch4_selectivity < 200))

/-- `get_prop_df` with its three printed per-stage removal counts
(`n_remove` for the mask, identity and outlier stages) alongside the
returned dataframe. -/
def get_prop_df_counts (mof2ids : List (Mof × ℕ)) (df : List Row) :
    Option (ℕ × ℕ × ℕ × List Row) :=
  let df1 := maskFilter df
  let n1 := df.length - df1.length
  let df2 := identityFilter mof2ids df1
  let n2 := df1.length - df2.length
  match attachIds mof2ids df2 with
  | none => none
  | some df3 =>
    let df4 := outlierFilter df3
    some (n1, n2, df3.length - df4.length, df4)

/-- The dataframe returned by `get_prop_df`. -/
def get_prop_df (mof2ids : List (Mof × ℕ)) (df : List Row) : Option (List Row) :=
  (get_prop_df_counts mof2ids df).map (fun q => q.2.2.2)

/-! ### `get_mofdict` (identity registry) and `get_generator_df` (loader) -/

/-- Pandas `drop_duplicates` keeping the first occurrence of each key
`f x`, generalized over the set of keys already seen. -/
def dedupBySeen [DecidableEq κ] (f : α → κ) (seen : List κ) : List α → List α
  | [] => []
  | x :: xs =>
    if f x ∈ seen then dedupBySeen f seen xs
    else x :: dedupBySeen f (f x :: seen) xs

/-- `df.loc[df[col].drop_duplicates().index]`: keep the first row for each
distinct key, in the original row order. -/
def dedupBy [DecidableEq κ] (f : α → κ) (l : List α) : List α :=
  dedupBySeen f [] l

/-- One insertion step of sorting the deduplicated subset by `id2mof`. -/
def insertById (r : Row) : List Row → List Row
  | [] => [r]
  | s :: ss => if r.id2mof ≤ s.id2mof then r :: s :: ss else s :: insertById r ss

/-- `sub_df.sort_values(by='id2mof')` (insertion sort; the keys are distinct
after deduplication, so any sort produces the same list). -/
def sortById (l : List Row) : List Row :=
  l.foldr insertById []

/-- The deduplicated-then-sorted reference subset of `get_mofdict`:
`sub_df = df.loc[df['id2mof'].drop_duplicates().index].sort_values(by='id2mof')`. -/
def subDf (df : List Row) : List Row :=
  sortById (dedupBy Row.id2mof df)

/-- The loop of `get_mofdict` over `sub_df.iterrows()`, filling the two
`OrderedDict`s `ids2mof` and `mof2ids`. -/
def buildMaps (sub : List Row) : List (ℕ × Mof) × List (Mof × ℕ) :=
  sub.foldl (fun acc r => (dinsert acc.1 r.id2mof r.mof, dinsert acc.2 r.mof r.id2mof))
    ([], [])

/-- The `mof_columns` selection of `get_mofdict`; an unrecognized `mof_type`
raises `ValueError('... not understood!')`. -/
def mofColumnsOf (mof_type : String) : Except String (List String) :=
  if mof_type = "id" then Except.ok ["id2mof"]
  else if mof_type = "cats" then Except.ok ["metal_node", "organic_core", "topology"]
  else if mof_type = "all" then
    Except.ok ["metal_node", "organic_core", "topology", "id2mof"]
  else Except.error (mof_type ++ " not understood!")

/-- `get_mofdict(df, mof_type)`, returning `(ids2mof, mof2ids, mof_columns)`. -/
def get_mofdict (df : List Row) (mof_type : String) :
    Except String (List (ℕ × Mof) × List (Mof × ℕ) × List String) :=
  match mofColumnsOf mof_type with
  | Except.error e => Except.error e
  | Except.ok cols =>
    let maps := buildMaps (subDf df)
    Except.ok (maps.1, maps.2, cols)

/-- The row-level behavior of `get_generator_df` (the column rename touches
only column labels, not rows; it is modelled separately below): optional
SMILES deduplication, then in test mode the subsample to the first row of
each distinct `id2mof`. -/
def get_generator_df_rows (use_duplicates testing : Bool) (df : List Row) : List Row :=
  let df1 := if use_duplicates then df else dedupBy Row.smiles df
  if testing then dedupBy Row.id2mof df1 else df1

/-- A dataframe with its column labels, for the rename step of
`get_generator_df`; the rows are positional lists of cell values. -/
structure DFrame (V : Type) where
  cols : List String
  rows : List (List V)
deriving DecidableEq, Repr

/-- The load step of `get_generator_df`:
`if smiles_column not in df.columns: df = df.rename(columns={'SMILES': smiles_column})`.
Pandas `rename` relabels any column named `SMILES` and is a no-op when no
column has that label; the cell data is untouched. -/
def renameSmiles (smiles_column : String) (df : DFrame V) : DFrame V :=
  if smiles_column ∈ df.cols then df
  else { df with cols := df.cols.map (fun c => if c = "SMILES" then smiles_column else c) }

/-! ### `predict_properties` (batched inference pipeline) -/

/-- Modelled from the spec: `utils.chunks` is imported from `vaemof.utils`,
which is not part of the sources; section 4.5 of the spec describes it as
partitioning the input sequence into contiguous chunks of `batch_size`, the
last chunk possibly smaller. -/
def chunks (B : ℕ) (l : List α) : List (List α) :=
  match l, B with
  | [], _ => []
  | _ :: _, 0 => []
  | x :: xs, b + 1 => (x :: xs).take (b + 1) :: chunks (b + 1) (xs.drop b)
termination_by l.length
decreasing_by simp [List.length_drop]; omega

/-- `predict_properties(data, model, trainer, batch_size)`.  The external
collaborators (the trainer's collate function, the model's encoder, its
`z_to_y` head and the `y_scaler` inverse transform) are batch operations
that are row-aligned with the chunk (spec section 4.5), so their composite
is embedded as per-example row functions `predRow` (collate, encode,
decode, inverse-transform) and `trueRow` (collate, inverse-transform).
The final `np.stack` of an empty list raises `ValueError`, hence `none`
for an empty accumulator. -/
def predict_properties (predRow : α → β) (trueRow : α → γ) (batch_size : ℕ)
    (data : List α) : Option (List β × List γ) :=
  let cs := chunks batch_size data
  let y_pred := (cs.map (fun c => c.map predRow)).flatten
  let y_true := (cs.map (fun c => c.map trueRow)).flatten
  if y_pred.length = 0 then none else some (y_pred, y_true)


/-! ### Concrete rows and registries used by witnesses and counterexamples -/

/-- A row that survives all three filter stages of `get_prop_df`. -/
def rowKept : Row := ⟨"m", "o", "t", true, 1, 2, 5, "CC"⟩

/-- A row removed by the mask filter. -/
def rowMasked : Row := ⟨"m", "o", "t", false, 1, 2, 0, "CC"⟩

/-- A row whose triple is not a key of the registry. -/
def rowUnknownMof : Row := ⟨"x", "y", "z", true, 1, 2, 0, "CC"⟩

/-- A row sitting exactly on the `200.0` selectivity boundary. -/
def rowOutlier : Row := ⟨"m", "o", "t", true, 200, 0, 0, "CC"⟩

/-- Reference row: canonical id `0`, triple `("m", "o", "t")`. -/
def rowT0 : Row := ⟨"m", "o", "t", true, 1, 2, 0, "CC"⟩

/-- Reference row: canonical id `1` with the same triple as `rowT0`. -/
def rowT1 : Row := ⟨"m", "o", "t", true, 3, 4, 1, "CC"⟩

/-- Reference row: canonical id `1`, a triple distinct from `rowT0`. -/
def rowU1 : Row := ⟨"w", "o", "t", true, 3, 4, 1, "CO"⟩

/-- A one-key `mof2ids` registry mapping `("m", "o", "t")` to `5`. -/
def regW : List (Mof × ℕ) := [(("m", "o", "t"), 5)]

/-! ### Unfolding lemmas for `chunks` -/

theorem chunks_nil (B : ℕ) : chunks B ([] : List α) = [] := by
  rw [chunks]

theorem chunks_zero (l : List α) : chunks 0 l = [] := by
  cases l <;> rw [chunks]

theorem chunks_cons (b : ℕ) (x : α) (xs : List α) :
    chunks (b + 1) (x :: xs) = (x :: xs).take (b + 1) :: chunks (b + 1) (xs.drop b) := by
  rw [chunks]

/-! ### Lemmas about `attachIds` -/

theorem dmem_cons [DecidableEq κ] (p : κ × ν) (ps : List (κ × ν)) (k : κ) :
    dmem (p :: ps) k = (decide (p.1 = k) || dmem ps k) := by
  simp [dmem]

theorem dlookup_cons [DecidableEq κ] (p : κ × ν) (ps : List (κ × ν)) (k : κ) :
    dlookup (p :: ps) k = if p.1 = k then some p.2 else dlookup ps k := by
  by_cases h : p.1 = k <;> simp [dlookup, List.find?, h]

theorem attachIds_length (mof2ids : List (Mof × ℕ)) (l l' : List Row)
    (h : attachIds mof2ids l = some l') : l'.length = l.length := by
  induction l generalizing l' with
  | nil => simp_all [attachIds]
  | cons r rs ih =>
    simp only [attachIds] at h
    cases hl : dlookup mof2ids r.mof with
    | none => rw [hl] at h; simp at h
    | some i =>
      rw [hl] at h
      cases ha : attachIds mof2ids rs with
      | none => rw [ha] at h; simp at h
      | some l'' =>
        rw [ha] at h
        simp at h
        simp [← h, ih l'' ha]

theorem attachIds_mem (mof2ids : List (Mof × ℕ)) (l l' : List Row)
    (h : attachIds mof2ids l = some l') (r' : Row) (hr : r' ∈ l') :
    ∃ r ∈ l, r'.mof = r.mof ∧ r'.mask = r.mask ∧
      r'.co2n2_selectivity = r.co2n2_selectivity ∧
      r'.co2ch4_selectivity = r.co2ch4_selectivity := by
  induction l generalizing l' with
  | nil => simp_all [attachIds]
  | cons r rs ih =>
    simp only [attachIds] at h
    cases hl : dlookup mof2ids r.mof with
    | none => rw [hl] at h; simp at h
    | some i =>
      rw [hl] at h
      cases ha : attachIds mof2ids rs with
      | none => rw [ha] at h; simp at h
      | some l'' =>
        rw [ha] at h
        simp at h
        rw [← h] at hr
        rcases List.mem_cons.mp hr with h1 | h1
        · exact ⟨r, List.mem_cons_self r rs, by simp [h1, Row.mof]⟩
        · obtain ⟨s, hs, hprops⟩ := ih l'' ha h1
          exact ⟨s, List.mem_cons_of_mem r hs, hprops⟩

theorem dlookup_isSome_of_dmem [DecidableEq κ] (d : List (κ × ν)) (k : κ)
    (h : dmem d k = true) : (dlookup d k).isSome = true := by
  induction d with
  | nil => simp [dmem] at h
  | cons p ps ih =>
    rw [dmem_cons] at h
    rw [dlookup_cons]
    by_cases hp : p.1 = k
    · simp [hp]
    · simp [hp] at h ⊢
      exact ih h

theorem attachIds_isSome_of_valid (mof2ids : List (Mof × ℕ)) (l : List Row)
    (h : ∀ r ∈ l, valid_mof mof2ids r = true) : (attachIds mof2ids l).isSome = true := by
  induction l with
  | nil => simp [attachIds]
  | cons r rs ih =>
    have hr : valid_mof mof2ids r = true := h r (List.mem_cons_self r rs)
    have hl := dlookup_isSome_of_dmem mof2ids r.mof hr
    simp only [attachIds]
    cases hd : dlookup mof2ids r.mof with
    | none => rw [hd] at hl; simp at hl
    | some i =>
      have := ih (fun s hs => h s (List.mem_cons_of_mem r hs))
      cases ha : attachIds mof2ids rs with
      | none => rw [ha] at this; simp at this
      | some l'' => simp

/-- Membership in the outlier stage output: a row survives exactly when both
selectivities are strictly below `200`. -/
theorem mem_outlierFilter (df : List Row) (r : Row) :
    r ∈ outlierFilter df ↔
      r ∈ df ∧ r.co2n2_selectivity < 200 ∧ r.co2ch4_selectivity < 200 := by
  simp only [outlierFilter, List.mem_filter, decide_eq_true_eq]
  tauto

/-- Claim C1: every row of the dataframe returned by `get_prop_df` has its
`(metal_node, organic_core, topology)` triple among the keys of `mof2ids`,
has `mask = true`, and has both selectivity columns strictly below `200.0`. -/
theorem claim_C1_filter_postconditions (mof2ids : List (Mof × ℕ)) (df out : List Row)
    (h : get_prop_df mof2ids df = some out) :
    ∀ r ∈ out, dmem mof2ids r.mof = true ∧ r.mask = true ∧
      r.co2n2_selectivity < 200 ∧ r.co2ch4_selectivity < 200 := by
  intro r hr
  simp only [get_prop_df, get_prop_df_counts] at h
  cases ha : attachIds mof2ids (identityFilter mof2ids (maskFilter df)) with
  | none => rw [ha] at h; simp at h
  | some df3 =>
    rw [ha] at h
    simp at h
    rw [← h] at hr
    obtain ⟨hmem, hs1, hs2⟩ := (mem_outlierFilter df3 r).mp hr
    obtain ⟨r0, hr0, hmof, hmask, _, _⟩ := attachIds_mem _ _ _ ha r hmem
    obtain ⟨hr0m, hvalid⟩ := List.mem_filter.mp hr0
    have hmask0 : r0.mask = true := (List.mem_filter.mp hr0m).2
    refine ⟨?_, by rw [hmask, hmask0], hs1, hs2⟩
    rw [hmof]
    exact hvalid

/-- Witness for C1 at a one-row dataframe and one-key registry. -/
theorem claim_C1_witness :
    dmem regW rowKept.mof = true ∧ rowKept.mask = true ∧
      rowKept.co2n2_selectivity < 200 ∧ rowKept.co2ch4_selectivity < 200 :=
  claim_C1_filter_postconditions regW [rowKept] [rowKept] (by decide) rowKept
    (by decide)

/-- Claim C3: the three per-stage removal counts of `get_prop_df` plus the
returned row count add up to the row count of the loaded dataframe. -/
theorem claim_C3_removal_ledger (mof2ids : List (Mof × ℕ)) (df : List Row)
    (n1 n2 n3 : ℕ) (out : List Row)
    (h : get_prop_df_counts mof2ids df = some (n1, n2, n3, out)) :
    n1 + n2 + n3 + out.length = df.length := by
  simp only [get_prop_df_counts] at h
  cases ha : attachIds mof2ids (identityFilter mof2ids (maskFilter df)) with
  | none => rw [ha] at h; simp at h
  | some df3 =>
    rw [ha] at h
    simp at h
    obtain ⟨h1, h2, h3, h4⟩ := h
    have e1 : (maskFilter df).length ≤ df.length := List.length_filter_le _ _
    have e2 : (identityFilter mof2ids (maskFilter df)).length ≤ (maskFilter df).length :=
      List.length_filter_le _ _
    have e3 : df3.length = (identityFilter mof2ids (maskFilter df)).length :=
      attachIds_length _ _ _ ha
    have e4 : (outlierFilter df3).length ≤ df3.length :=
      le_trans (List.length_filter_le _ _) (List.length_filter_le _ _)
    subst h1 h2 h3 h4
    unfold outlierFilter at e4 ⊢
    omega

/-- Witness for C3: a four-row dataframe losing one row at each stage. -/
theorem claim_C3_witness :
    1 + 1 + 1 + ([rowKept] : List Row).length =
      ([rowMasked, rowUnknownMof, rowOutlier, rowKept] : List Row).length :=
  claim_C3_removal_ledger regW [rowMasked, rowUnknownMof, rowOutlier, rowKept]
    1 1 1 [rowKept] (by decide)

/-- Claim C4, counterexample to the claim as stated: in `rowOutlier` neither
selectivity exceeds `200.0` (both are `≤ 200`), yet the outlier stage drops
the row, because the code keeps only rows strictly below `200.0`. -/
theorem claim_C4_counterexample :
    rowOutlier.co2n2_selectivity ≤ 200 ∧ rowOutlier.co2ch4_selectivity ≤ 200 ∧
      rowOutlier ∉ outlierFilter [rowOutlier] := by
  decide

/-- Claim C4 (amended): the outlier stage drops exactly those rows in which
at least one selectivity is greater than or equal to `200.0`; a row with both
selectivities strictly less than `200.0` is retained. -/
theorem claim_C4_amended_outlier_stage (df : List Row) (r : Row) :
    r ∈ outlierFilter df ↔
      r ∈ df ∧ r.co2n2_selectivity < 200 ∧ r.co2ch4_selectivity < 200 :=
  mem_outlierFilter df r

/-- Claim C9: the canonical-id lookup in `get_prop_df` is applied only to
rows that survived the identity filter, so its missing-key (`KeyError`)
branch is unreachable and the whole pipeline never fails. -/
theorem claim_C9_lookup_total (mof2ids : List (Mof × ℕ)) (df : List Row) :
    (attachIds mof2ids (identityFilter mof2ids (maskFilter df))).isSome = true ∧
    (get_prop_df mof2ids df).isSome = true := by
  have hall : ∀ r ∈ identityFilter mof2ids (maskFilter df),
      valid_mof mof2ids r = true := fun r hr => (List.mem_filter.mp hr).2
  have h1 := attachIds_isSome_of_valid mof2ids _ hall
  refine ⟨h1, ?_⟩
  simp only [get_prop_df, get_prop_df_counts]
  cases ha : attachIds mof2ids (identityFilter mof2ids (maskFilter df)) with
  | none => rw [ha] at h1; simp at h1
  | some df3 => simp

/-! ### Lemmas about deduplication, sorting and the registry maps -/

theorem mem_map_dedupBySeen [DecidableEq κ] (f : α → κ) (seen : List κ) (l : List α)
    (k : κ) : k ∈ (dedupBySeen f seen l).map f ↔ k ∉ seen ∧ k ∈ l.map f := by
  induction l generalizing seen with
  | nil => simp [dedupBySeen]
  | cons x xs ih =>
    simp only [dedupBySeen]
    by_cases hx : f x ∈ seen
    · rw [if_pos hx, ih]
      simp only [List.map_cons, List.mem_cons]
      constructor
      · exact fun h => ⟨h.1, Or.inr h.2⟩
      · rintro ⟨h1, h2 | h2⟩
        · subst h2; exact absurd hx h1
        · exact ⟨h1, h2⟩
    · rw [if_neg hx]
      simp only [List.map_cons, List.mem_cons, ih]
      constructor
      · rintro (rfl | ⟨h1, h2⟩)
        · exact ⟨hx, Or.inl rfl⟩
        · simp only [List.mem_cons, not_or] at h1
          exact ⟨h1.2, Or.inr h2⟩
      · rintro ⟨h1, rfl | h2⟩
        · exact Or.inl rfl
        · by_cases hk : k = f x
          · exact Or.inl hk
          · exact Or.inr ⟨by simp [List.mem_cons, hk, h1], h2⟩

theorem nodup_map_dedupBySeen [DecidableEq κ] (f : α → κ) (seen : List κ)
    (l : List α) : ((dedupBySeen f seen l).map f).Nodup := by
  induction l generalizing seen with
  | nil => simp [dedupBySeen]
  | cons x xs ih =>
    simp only [dedupBySeen]
    by_cases hx : f x ∈ seen
    · rw [if_pos hx]; exact ih seen
    · rw [if_neg hx]
      simp only [List.map_cons, List.nodup_cons]
      refine ⟨?_, ih _⟩
      rw [mem_map_dedupBySeen]
      simp

theorem insertById_perm (r : Row) (l : List Row) : (insertById r l).Perm (r :: l) := by
  induction l with
  | nil => exact List.Perm.refl _
  | cons s ss ih =>
    simp only [insertById]
    by_cases h : r.id2mof ≤ s.id2mof
    · rw [if_pos h]
    · rw [if_neg h]
      exact (ih.cons s).trans (List.Perm.swap r s ss)

theorem sortById_perm (l : List Row) : (sortById l).Perm l := by
  induction l with
  | nil => exact List.Perm.refl _
  | cons x xs ih =>
    simp only [sortById, List.foldr_cons]
    exact (insertById_perm x _).trans (ih.cons x)

theorem nodup_map_subDf (df : List Row) : ((subDf df).map Row.id2mof).Nodup := by
  have h2 := (sortById_perm (dedupBy Row.id2mof df)).map Row.id2mof
  exact h2.nodup_iff.mpr (nodup_map_dedupBySeen Row.id2mof [] df)

theorem nodup_map_of_map_nodup (l : List α) (f : α → κ) (g : α → μ)
    (hf : (l.map f).Nodup) (hinj : ∀ r ∈ l, ∀ s ∈ l, g r = g s → f r = f s) :
    (l.map g).Nodup := by
  induction l with
  | nil => simp
  | cons x xs ih =>
    simp only [List.map_cons, List.nodup_cons] at hf ⊢
    refine ⟨?_, ih hf.2
      (fun r hr s hs => hinj r (List.mem_cons_of_mem x hr) s (List.mem_cons_of_mem x hs))⟩
    intro hmem
    obtain ⟨s, hs, hgs⟩ := List.mem_map.mp hmem
    have hfs : f s = f x :=
      hinj s (List.mem_cons_of_mem x hs) x (List.mem_cons_self x xs) hgs
    exact hf.1 (hfs ▸ List.mem_map_of_mem f hs)

theorem dmem_append [DecidableEq κ] (d e : List (κ × ν)) (k : κ) :
    dmem (d ++ e) k = (dmem d k || dmem e k) := by
  simp [dmem, List.any_append]

theorem dmem_singleton [DecidableEq κ] (a k : κ) (v : ν) :
    dmem [(a, v)] k = decide (a = k) := by
  simp [dmem]

theorem dinsert_not_mem [DecidableEq κ] (d : List (κ × ν)) (k : κ) (v : ν)
    (h : dmem d k = false) : dinsert d k v = d ++ [(k, v)] := by
  simp [dinsert, h]

theorem buildMaps_loop (sub : List Row) (d1 : List (ℕ × Mof)) (d2 : List (Mof × ℕ))
    (h1 : ∀ r ∈ sub, dmem d1 r.id2mof = false)
    (h2 : ∀ r ∈ sub, dmem d2 r.mof = false)
    (n1 : (sub.map Row.id2mof).Nodup) (n2 : (sub.map Row.mof).Nodup) :
    sub.foldl
        (fun acc r => (dinsert acc.1 r.id2mof r.mof, dinsert acc.2 r.mof r.id2mof))
        (d1, d2) =
      (d1 ++ sub.map (fun r => (r.id2mof, r.mof)),
        d2 ++ sub.map (fun r => (r.mof, r.id2mof))) := by
  induction sub generalizing d1 d2 with
  | nil => simp
  | cons r rs ih =>
    simp only [List.map_cons, List.nodup_cons] at n1 n2
    simp only [List.foldl_cons]
    rw [dinsert_not_mem _ _ _ (h1 r (List.mem_cons_self r rs)),
      dinsert_not_mem _ _ _ (h2 r (List.mem_cons_self r rs))]
    rw [ih (d1 ++ [(r.id2mof, r.mof)]) (d2 ++ [(r.mof, r.id2mof)]) ?_ ?_ n1.2 n2.2]
    · simp
    · intro s hs
      rw [dmem_append]
      have hd : dmem d1 s.id2mof = false := h1 s (List.mem_cons_of_mem r hs)
      have hne : ¬ (r.id2mof = s.id2mof) := by
        intro he
        exact n1.1 (he ▸ List.mem_map_of_mem Row.id2mof hs)
      rw [hd, dmem_singleton]
      simp only [Bool.false_or, decide_eq_false_iff_not]
      exact hne
    · intro s hs
      rw [dmem_append]
      have hd : dmem d2 s.mof = false := h2 s (List.mem_cons_of_mem r hs)
      have hne : ¬ (r.mof = s.mof) := by
        intro he
        exact n2.1 (he ▸ List.mem_map_of_mem Row.mof hs)
      rw [hd, dmem_singleton]
      simp only [Bool.false_or, decide_eq_false_iff_not]
      exact hne

theorem buildMaps_eq (sub : List Row)
    (n1 : (sub.map Row.id2mof).Nodup) (n2 : (sub.map Row.mof).Nodup) :
    buildMaps sub =
      (sub.map (fun r => (r.id2mof, r.mof)), sub.map (fun r => (r.mof, r.id2mof))) := by
  unfold buildMaps
  have h := buildMaps_loop sub [] [] (by simp [dmem]) (by simp [dmem]) n1 n2
  simpa using h

theorem dlookup_mem_snd [DecidableEq κ] (d : List (κ × ν)) (k : κ) (v : ν)
    (h : dlookup d k = some v) : v ∈ d.map Prod.snd := by
  unfold dlookup at h
  cases hf : d.find? (fun p => decide (p.1 = k)) with
  | none => rw [hf] at h; simp at h
  | some p =>
    rw [hf] at h
    simp at h
    exact h ▸ List.mem_map_of_mem Prod.snd (List.mem_of_find?_eq_some hf)

theorem dlookup_swap [DecidableEq κ] [DecidableEq μ] (d : List (κ × μ))
    (hb : (d.map Prod.snd).Nodup) (k : κ) (v : μ) (h : dlookup d k = some v) :
    dlookup (d.map Prod.swap) v = some k := by
  induction d with
  | nil => simp [dlookup] at h
  | cons p ps ih =>
    rw [dlookup_cons] at h
    simp only [List.map_cons, List.nodup_cons] at hb
    rw [List.map_cons, dlookup_cons]
    by_cases hp : p.1 = k
    · rw [if_pos hp] at h
      simp only [Option.some.injEq] at h
      rw [if_pos (show (Prod.swap p).1 = v from h)]
      simp [Prod.swap, hp]
    · rw [if_neg hp] at h
      have hv : v ∈ ps.map Prod.snd := dlookup_mem_snd ps k v h
      have hne : ¬ ((Prod.swap p).1 = v) := by
        intro he
        have he2 : p.2 = v := he
        apply hb.1
        rw [he2]
        exact hv
      rw [if_neg hne]
      exact ih hb.2 h

/-- Claim C2, counterexample to the claim as stated: on a reference table
in which the two canonical ids `0` and `1` carry the same triple
`("m", "o", "t")`, `ids2mof` maps `0` to the triple but `mof2ids` maps the
triple back to `1` (the later loop iteration overwrote the entry), so the
round trip `id → triple → id` fails at key `0`. -/
theorem claim_C2_counterexample :
    dlookup (buildMaps (subDf [rowT0, rowT1])).1 0 = some ("m", "o", "t") ∧
    dlookup (buildMaps (subDf [rowT0, rowT1])).2 ("m", "o", "t") = some 1 ∧
    ¬ (∀ i mof, dlookup (buildMaps (subDf [rowT0, rowT1])).1 i = some mof →
        dlookup (buildMaps (subDf [rowT0, rowT1])).2 mof = some i) := by
  refine ⟨by decide, by decide, fun h => ?_⟩
  exact absurd (h 0 ("m", "o", "t") (by decide)) (by decide)

/-- Claim C2 (amended): the two mappings returned by `get_mofdict` are
mutual inverses provided the claimed reference-table invariant holds, i.e.
distinct rows of the deduplicated reference subset never share a triple
(each triple belongs to exactly one canonical id). -/
theorem claim_C2_amended_registry_inverses (df : List Row)
    (H : ∀ r ∈ subDf df, ∀ s ∈ subDf df, r.mof = s.mof → r.id2mof = s.id2mof) :
    (∀ i mof, dlookup (buildMaps (subDf df)).1 i = some mof →
        dlookup (buildMaps (subDf df)).2 mof = some i) ∧
    (∀ mof i, dlookup (buildMaps (subDf df)).2 mof = some i →
        dlookup (buildMaps (subDf df)).1 i = some mof) := by
  have n1 : ((subDf df).map Row.id2mof).Nodup := nodup_map_subDf df
  have n2 : ((subDf df).map Row.mof).Nodup :=
    nodup_map_of_map_nodup (subDf df) Row.id2mof Row.mof n1 H
  rw [buildMaps_eq (subDf df) n1 n2]
  have hswap1 : ((subDf df).map (fun r => (r.id2mof, r.mof))).map Prod.swap =
      (subDf df).map (fun r => (r.mof, r.id2mof)) := by
    rw [List.map_map]
    rfl
  have hswap2 : ((subDf df).map (fun r => (r.mof, r.id2mof))).map Prod.swap =
      (subDf df).map (fun r => (r.id2mof, r.mof)) := by
    rw [List.map_map]
    rfl
  have hsnd1 : ((subDf df).map (fun r => (r.id2mof, r.mof))).map Prod.snd =
      (subDf df).map Row.mof := by
    rw [List.map_map]
    rfl
  have hsnd2 : ((subDf df).map (fun r => (r.mof, r.id2mof))).map Prod.snd =
      (subDf df).map Row.id2mof := by
    rw [List.map_map]
    rfl
  constructor
  · intro i mof h
    rw [← hswap1]
    exact dlookup_swap _ (by rw [hsnd1]; exact n2) i mof h
  · intro mof i h
    rw [← hswap2]
    exact dlookup_swap _ (by rw [hsnd2]; exact n1) mof i h

/-- Witness for the amended C2 at a two-row reference table with distinct
triples for the two ids. -/
theorem claim_C2_witness :
    dlookup (buildMaps (subDf [rowT0, rowU1])).2 ("m", "o", "t") = some 0 :=
  (claim_C2_amended_registry_inverses [rowT0, rowU1] (by decide)).1
    0 ("m", "o", "t") (by decide)

/-- Claim C6: `get_mofdict` fails with `ValueError` exactly when `mof_type`
is none of the three recognized mode selectors. -/
theorem claim_C6_mode_validation (df : List Row) (mof_type : String) :
    (get_mofdict df mof_type).isOk = true ↔
      (mof_type = "id" ∨ mof_type = "cats" ∨ mof_type = "all") := by
  by_cases h1 : mof_type = "id"
  · simp [get_mofdict, mofColumnsOf, h1, Except.isOk, Except.toBool]
  · by_cases h2 : mof_type = "cats"
    · simp [get_mofdict, mofColumnsOf, h1, h2, Except.isOk, Except.toBool]
    · by_cases h3 : mof_type = "all"
      · simp [get_mofdict, mofColumnsOf, h1, h2, h3, Except.isOk, Except.toBool]
      · simp [get_mofdict, mofColumnsOf, h1, h2, h3, Except.isOk, Except.toBool]

theorem length_filter_eq_one [DecidableEq κ] (l : List α) (f : α → κ) (k : κ)
    (hn : (l.map f).Nodup) (hk : k ∈ l.map f) :
    (l.filter (fun x => decide (f x = k))).length = 1 := by
  induction l with
  | nil => simp at hk
  | cons x xs ih =>
    simp only [List.map_cons, List.nodup_cons, List.mem_cons] at hn hk
    by_cases hx : f x = k
    · rw [List.filter_cons_of_pos (by simp [hx])]
      suffices hz : (xs.filter (fun y => decide (f y = k))).length = 0 by
        simp [hz]
      rw [List.length_eq_zero, List.filter_eq_nil_iff]
      intro y hy
      simp only [decide_eq_true_eq]
      intro hfy
      exact hn.1 (hx ▸ hfy ▸ List.mem_map_of_mem f hy)
    · rw [List.filter_cons_of_neg (by simp [hx])]
      apply ih hn.2
      rcases hk with h | h
      · exact absurd h.symm hx
      · exact h

/-- Claim C7, counterexample to the claim as stated: with
`use_duplicates = false` the SMILES deduplication step runs before the
test-mode subsample and removes every row of id `1` (its SMILES string
duplicates a row of id `0`), so the output's distinct `id2mof` set is a
strict subset of the input's. -/
theorem claim_C7_counterexample :
    (1 : ℕ) ∈ ([rowT0, rowT1].map Row.id2mof) ∧
    (1 : ℕ) ∉ ((get_generator_df_rows false true [rowT0, rowT1]).map Row.id2mof) := by
  decide

/-- Claim C7 (amended): with `use_duplicates = true` and `testing = true`,
`get_generator_df` returns exactly one row per distinct `id2mof` value of
the input, and the set of distinct `id2mof` values is unchanged. -/
theorem claim_C7_amended_test_mode (df : List Row) :
    ((get_generator_df_rows true true df).map Row.id2mof).Nodup ∧
    (∀ i, i ∈ (get_generator_df_rows true true df).map Row.id2mof ↔
        i ∈ df.map Row.id2mof) ∧
    (∀ i ∈ df.map Row.id2mof,
      ((get_generator_df_rows true true df).filter
        (fun r => decide (r.id2mof = i))).length = 1) := by
  have heq : get_generator_df_rows true true df = dedupBy Row.id2mof df := rfl
  rw [heq]
  have hn : ((dedupBy Row.id2mof df).map Row.id2mof).Nodup :=
    nodup_map_dedupBySeen Row.id2mof [] df
  have hmem : ∀ i, i ∈ (dedupBy Row.id2mof df).map Row.id2mof ↔
      i ∈ df.map Row.id2mof := by
    intro i
    rw [dedupBy, mem_map_dedupBySeen]
    simp
  exact ⟨hn, hmem,
    fun i hi => length_filter_eq_one _ Row.id2mof i hn ((hmem i).mpr hi)⟩

/-! ### Lemmas about `chunks` and `predict_properties` -/

theorem chunks_flatten_aux (B : ℕ) (hB : 0 < B) :
    ∀ (n : ℕ) (l : List α), l.length ≤ n → (chunks B l).flatten = l := by
  intro n
  induction n with
  | zero =>
    intro l hl
    have hnil : l = [] := List.length_eq_zero.mp (Nat.le_zero.mp hl)
    subst hnil
    simp [chunks_nil]
  | succ n ih =>
    intro l hl
    cases l with
    | nil => simp [chunks_nil]
    | cons x xs =>
      cases B with
      | zero => exact absurd hB (by simp)
      | succ b =>
        rw [chunks_cons]
        simp only [List.flatten_cons]
        rw [ih (xs.drop b) (by simp only [List.length_drop, List.length_cons] at hl ⊢; omega)]
        exact List.take_append_drop (b + 1) (x :: xs)

theorem chunks_flatten (B : ℕ) (hB : 0 < B) (l : List α) :
    (chunks B l).flatten = l :=
  chunks_flatten_aux B hB l.length l (le_refl _)

theorem flatten_map_map (L : List (List α)) (f : α → β) :
    (L.map (fun c => c.map f)).flatten = L.flatten.map f := by
  induction L with
  | nil => simp
  | cons c cs ih => simp only [List.map_cons, List.flatten_cons, List.map_append, ih]

theorem chunks_getLast_length_aux (B : ℕ) (hB : 0 < B) :
    ∀ (n : ℕ) (l : List α), l.length ≤ n → l ≠ [] → l.length % B ≠ 0 →
      (chunks B l).getLast?.map List.length = some (l.length % B) := by
  intro n
  induction n with
  | zero =>
    intro l hl hne _
    exact absurd (List.length_eq_zero.mp (Nat.le_zero.mp hl)) hne
  | succ n ih =>
    intro l hl hne hmod
    cases l with
    | nil => exact absurd rfl hne
    | cons x xs =>
      cases B with
      | zero => exact absurd hB (by simp)
      | succ b =>
        rw [chunks_cons]
        by_cases hd : xs.drop b = []
        · rw [hd, chunks_nil]
          have hxb : xs.length ≤ b := by
            have := List.drop_eq_nil_iff.mp hd
            omega
          have hlen : (x :: xs).length ≤ b + 1 := by simp; omega
          have hlt : (x :: xs).length < b + 1 := by
            rcases Nat.lt_or_ge ((x :: xs).length) (b + 1) with h | h
            · exact h
            · have hEq : (x :: xs).length = b + 1 := le_antisymm hlen h
              rw [hEq] at hmod
              simp [Nat.mod_self] at hmod
          simp only [List.getLast?_singleton, Option.map_some']
          rw [List.length_take, Nat.min_eq_right hlen, Nat.mod_eq_of_lt hlt]
        · have hlb : b < xs.length := by
            by_contra hc
            push_neg at hc
            exact hd (List.drop_eq_nil_of_le hc)
          have hmeq : (xs.drop b).length % (b + 1) = (x :: xs).length % (b + 1) := by
            simp only [List.length_drop, List.length_cons]
            conv_rhs => rw [show xs.length + 1 = (b + 1) + (xs.length - b) by omega]
            rw [Nat.add_mod_left]
          have hrec := ih (xs.drop b)
            (by simp only [List.length_drop, List.length_cons] at hl ⊢; omega) hd
            (by rw [hmeq]; exact hmod)
          rw [← hmeq]
          cases hc : chunks (b + 1) (xs.drop b) with
          | nil => rw [hc] at hrec; simp at hrec
          | cons c cs =>
            rw [hc] at hrec
            rw [List.getLast?_cons_cons]
            exact hrec

/-- Claim C5, counterexample to the claim as stated: at the empty input
sequence (`N = 0`) and the default batch size `64 > 0`,
`predict_properties` does not return two zero-row arrays; the final
`np.stack` of the empty accumulator raises. -/
theorem claim_C5_counterexample :
    0 < 64 ∧
      predict_properties (fun n : ℕ => n + 1) (fun n : ℕ => n) 64 ([] : List ℕ) =
        none :=
  ⟨by decide, by simp [predict_properties, chunks_nil]⟩

/-- Claim C5 (amended): for every nonempty input sequence and every batch
size `B > 0`, `predict_properties` returns two arrays with exactly one row
per input example in original order (row `i` comes from example `i`), and
when `N` is not a multiple of `B` the last chunk processed has `N mod B`
examples. -/
theorem claim_C5_amended_batched_inference {β γ : Type} (predRow : α → β)
    (trueRow : α → γ) (B : ℕ) (data : List α) (hB : 0 < B) (hd : data ≠ []) :
    predict_properties predRow trueRow B data =
      some (data.map predRow, data.map trueRow) ∧
    (data.length % B ≠ 0 →
      (chunks B data).getLast?.map List.length = some (data.length % B)) := by
  have h1 : ((chunks B data).map (fun c => c.map predRow)).flatten = data.map predRow := by
    rw [flatten_map_map, chunks_flatten B hB data]
  have h2 : ((chunks B data).map (fun c => c.map trueRow)).flatten = data.map trueRow := by
    rw [flatten_map_map, chunks_flatten B hB data]
  constructor
  · simp only [predict_properties, h1, h2]
    rw [if_neg]
    simp only [List.length_map]
    intro hz
    exact hd (List.length_eq_zero.mp hz)
  · intro hmod
    exact chunks_getLast_length_aux B hB data.length data (le_refl _) hd hmod

/-- Witness for the amended C5 at three examples and batch size two. -/
theorem claim_C5_witness :
    predict_properties (fun n : ℕ => n + 1) (fun n : ℕ => n) 2 [10, 20, 30] =
      some (([10, 20, 30] : List ℕ).map (fun n => n + 1),
        ([10, 20, 30] : List ℕ).map (fun n => n)) ∧
    (([10, 20, 30] : List ℕ).length % 2 ≠ 0 →
      (chunks 2 ([10, 20, 30] : List ℕ)).getLast?.map List.length =
        some (([10, 20, 30] : List ℕ).length % 2)) :=
  claim_C5_amended_batched_inference (fun n : ℕ => n + 1) (fun n : ℕ => n) 2
    [10, 20, 30] (by decide) (by decide)

/-- Claim C10: on an empty input sequence `predict_properties` fails (the
final stacking of the empty result list raises) instead of returning a pair
of zero-row arrays, for every batch size. -/
theorem claim_C10_empty_input {α β γ : Type} (predRow : α → β) (trueRow : α → γ)
    (B : ℕ) : predict_properties predRow trueRow B ([] : List α) = none := by
  simp [predict_properties, chunks_nil]

/-- Claim C8: in the load step of `get_generator_df`, the cell data is never
touched; when the requested SMILES column is already present nothing is
renamed; when neither the requested name nor `SMILES` is present the step is
a silent no-op; and when the requested name is absent the column labelled
`SMILES` is renamed to it. -/
theorem claim_C8_smiles_rename (V : Type) (df : DFrame V) (sc : String) :
    (renameSmiles sc df).rows = df.rows ∧
    (sc ∈ df.cols → renameSmiles sc df = df) ∧
    (sc ∉ df.cols → "SMILES" ∉ df.cols → renameSmiles sc df = df) ∧
    (sc ∉ df.cols →
      (renameSmiles sc df).cols =
        df.cols.map (fun c => if c = "SMILES" then sc else c)) := by
  obtain ⟨cols, rows⟩ := df
  simp only [renameSmiles]
  by_cases h : sc ∈ cols
  · rw [if_pos h]
    exact ⟨rfl, fun _ => rfl, fun hn _ => absurd h hn, fun hn => absurd h hn⟩
  · rw [if_neg h]
    refine ⟨rfl, fun hc => absurd hc h, fun _ hs => ?_, fun _ => rfl⟩
    have hmap : cols.map (fun c => if c = "SMILES" then sc else c) = cols := by
      conv_rhs => rw [← List.map_id cols]
      apply List.map_congr_left
      intro a ha
      have hne : ¬ (a = "SMILES") := fun he => hs (he ▸ ha)
      simp [hne]
    simp [hmap]

/-- Witness for C8 covering the no-op case, the already-present case and the
rename case. -/
theorem claim_C8_witness :
    renameSmiles "smi" (DFrame.mk ["a"] ([] : List (List ℕ))) =
      DFrame.mk ["a"] [] ∧
    renameSmiles "a" (DFrame.mk ["a", "SMILES"] ([] : List (List ℕ))) =
      DFrame.mk ["a", "SMILES"] [] ∧
    (renameSmiles "smi" (DFrame.mk ["SMILES"] ([] : List (List ℕ)))).cols =
      ["SMILES"].map (fun c => if c = "SMILES" then "smi" else c) := by
  refine ⟨?_, ?_, ?_⟩
  · exact (claim_C8_smiles_rename ℕ (DFrame.mk ["a"] []) "smi").2.2.1
      (by decide) (by decide)
  · exact (claim_C8_smiles_rename ℕ (DFrame.mk ["a", "SMILES"] []) "a").2.1
      (by decide)
  · exact (claim_C8_smiles_rename ℕ (DFrame.mk ["SMILES"] []) "smi").2.2.2
      (by decide)
